import Mathlib

/-!
Verification development for the matching-and-diagnostics core of the
harper grammar checker: the token-pattern engine
(WhitespacePattern, Invert, RepeatingPattern) and the AdjectiveOfA linter.

Rust token slices are modelled as `List Token`, character slices as
`List Char`, `Option<usize>` as `Option Nat`.  Machine integers stay in
`Nat`: every quantity involved (cursor positions, repetition counts,
span offsets) is a length or index far from overflow, and the source
performs no wrapping arithmetic on them.  Case folding is modelled with
the ASCII `Char.toLower`, which agrees with the ASCII case-insensitive
comparisons used by the source.
-/

/-- A half-open character-offset range.  Field `end` of the source is
renamed `stop` because `end` is a reserved word in Lean. -/
structure Span where
  start : Nat
  stop : Nat
deriving DecidableEq, Repr

/-- Modelled from the spec: the token classification is a *capability
set* (spec sections 3 and 9), queried through independent boolean
predicates `is_whitespace`, `is_word`, `is_noun`, `is_verb`,
`is_adjective`.  The concrete TokenKind type is not part of the sources
under verification; only these predicates are consumed by them. -/
structure TokenKind where
  is_whitespace : Bool
  is_word : Bool
  is_noun : Bool
  is_verb : Bool
  is_adjective : Bool
deriving DecidableEq, Repr

/-- Modelled from the spec: a token is a classified span (spec section 3). -/
structure Token where
  span : Span
  kind : TokenKind
deriving DecidableEq, Repr

/-- Modelled from the spec: a Document owns the full character sequence
and the ordered token sequence derived from it (spec section 3). -/
structure Document where
  source : List Char
  tokens : List Token
deriving DecidableEq, Repr

/-- Modelled from the spec: `Document.get_token(index) -> Option<Token>`,
bounds-checked, absence on out-of-range (spec section 6). -/
def Document.get_token (document : Document) (index : Nat) : Option Token :=
  document.tokens[index]?

/-- Modelled from the spec: `Document.get_span_content(span) -> slice<char>`,
span-to-text resolution (spec section 6). -/
def Document.get_span_content (document : Document) (span : Span) : List Char :=
  (document.source.drop span.start).take (span.stop - span.start)

/-- Modelled from the spec: `Document.get_span_content_str`; in this
embedding, strings are lists of characters, so it coincides with
`get_span_content` (spec section 6). -/
def Document.get_span_content_str (document : Document) (span : Span) : List Char :=
  document.get_span_content span

/-- Modelled from the spec: `Document.iter_adjective_indices()` is a
finite, ascending-order iteration over the token indices carrying the
adjective capability (spec section 6). -/
def Document.iter_adjective_indices (document : Document) : List Nat :=
  (List.range document.tokens.length).filter fun i =>
    match document.tokens[i]? with
    | some t => t.kind.is_adjective
    | none => false

/-- Rust `str::to_lowercase`, restricted to the ASCII case mapping that
all comparisons in the verified sources rely on. -/
def toLowercase (s : List Char) : List Char :=
  s.map Char.toLower

/-- Rust `str::eq_ignore_ascii_case`. -/
def eqIgnoreAsciiCase (a b : List Char) : Bool :=
  a.map Char.toLower == b.map Char.toLower

/-- Rust `str::ends_with`. -/
def strEndsWith (s suf : List Char) : Bool :=
  suf.isSuffixOf s

/-- The `Pattern` trait contract:
`matches(tokens: &[Token], source: &[char]) -> Option<usize>`.
A boxed trait object `Box<dyn Pattern>` is modelled as a function of
this type. -/
def PatternFn : Type :=
  List Token → List Char → Option Nat

/-- `WhitespacePattern` (whitespace_pattern.rs): a fieldless struct. -/
structure WhitespacePattern

/-- `WhitespacePattern::matches`: the length of the maximal leading run
of whitespace tokens, `None` if that run is empty. -/
def WhitespacePattern.matches (_p : WhitespacePattern) (tokens : List Token)
    (_source : List Char) : Option Nat :=
  let count := (tokens.findIdx? (fun t => !t.kind.is_whitespace)).getD tokens.length
  if count = 0 then none else some count

/-- `Invert` (invert.rs): holds the boxed inner pattern. -/
structure Invert where
  inner : PatternFn

/-- `Invert::matches`: `Some(1)` when the inner pattern fails, `None`
when it succeeds. -/
def Invert.matches (p : Invert) (tokens : List Token) (source : List Char) :
    Option Nat :=
  if (p.inner tokens source).isSome then none else some 1

/-- `RepeatingPattern` (repeating_pattern.rs). -/
structure RepeatingPattern where
  inner : PatternFn
  required_repetitions : Nat

/-- Result of running `RepeatingPattern::matches` in Rust: either a
normal return value, or a `fault` marking the slice-index panic that
`&tokens[tok_cursor..]` raises when `tok_cursor > tokens.len()`. -/
inductive MatchResult where
  | ok (res : Option Nat)
  | fault
deriving DecidableEq, Repr

/-- The loop of `RepeatingPattern::matches`, with the mutable state
`tok_cursor` and `repetition` made explicit.  Each iteration first
takes the slice `tokens[tok_cursor..]` (a fault if the cursor passed
the end), then applies the inner pattern:
a zero-length match returns `Some(tok_cursor)` at once; a positive
match advances the cursor and the repetition count; a failure returns
`Some(tok_cursor)` when enough repetitions were seen, else `None`. -/
def RepeatingPattern.matchesFrom (p : RepeatingPattern) (tokens : List Token)
    (source : List Char) (tok_cursor repetition : Nat) : MatchResult :=
  if _h : tok_cursor ≤ tokens.length then
    match p.inner (tokens.drop tok_cursor) source with
    | some 0 => .ok (some tok_cursor)
    | some (match_len + 1) =>
        p.matchesFrom tokens source (tok_cursor + (match_len + 1)) (repetition + 1)
    | none =>
        if p.required_repetitions ≤ repetition then .ok (some tok_cursor)
        else .ok none
  else
    .fault
termination_by tokens.length + 1 - tok_cursor
decreasing_by omega

/-- `RepeatingPattern::matches`: the loop started at cursor 0 with no
repetitions counted. -/
def RepeatingPattern.matches (p : RepeatingPattern) (tokens : List Token)
    (source : List Char) : MatchResult :=
  p.matchesFrom tokens source 0 0

example :
    (RepeatingPattern.mk (fun _ _ => some 0) 7).matches [] [] = .ok (some 0) := by
  simp [RepeatingPattern.matches, RepeatingPattern.matchesFrom]

example :
    (Invert.mk (WhitespacePattern.mk.matches)).matches [] [] = some 1 := by
  decide

/-- Modelled from the spec: a Suggestion is a proposed literal text
replacement for a span (spec section 3); the variant used by the rule
is `Suggestion::ReplaceWith(Vec<char>)`. -/
inductive Suggestion where
  | ReplaceWith (replacement : List Char)
deriving DecidableEq, Repr

/-- Modelled from the spec: the lint-kind enumeration (spec section 3);
only `Style` is produced by the rule under verification. -/
inductive LintKind where
  | Style
  | Miscellaneous
deriving DecidableEq, Repr

/-- Modelled from the spec: the Lint diagnostic record (spec section 3). -/
structure Lint where
  span : Span
  lint_kind : LintKind
  suggestions : List Suggestion
  message : String
  priority : Nat
deriving DecidableEq, Repr

/-- `ADJECTIVE_WHITELIST` (adjective_of_a.rs): bad, big, good, large,
long, vague. -/
def ADJECTIVE_WHITELIST : List (List Char) :=
  [['b','a','d'], ['b','i','g'], ['g','o','o','d'],
   ['l','a','r','g','e'], ['l','o','n','g'], ['v','a','g','u','e']]

/-- `CONTEXT_WORDS` (adjective_of_a.rs): as, how, that, this, too. -/
def CONTEXT_WORDS : List (List Char) :=
  [['a','s'], ['h','o','w'], ['t','h','a','t'], ['t','h','i','s'], ['t','o','o']]

/-- `ADJECTIVE_BLACKLIST` (adjective_of_a.rs): much, part. -/
def ADJECTIVE_BLACKLIST : List (List Char) :=
  [['m','u','c','h'], ['p','a','r','t']]

/-- `has_context_word` (adjective_of_a.rs): the token before the
adjective must be whitespace and the token before that a word whose
text matches a context word case-insensitively. -/
def has_context_word (document : Document) (adj_idx : Nat) : Bool :=
  if adj_idx < 2 then false
  else
    match document.get_token (adj_idx - 1) with
    | none => false
    | some space_token =>
      if !space_token.kind.is_whitespace then false
      else
        match document.get_token (adj_idx - 2) with
        | none => false
        | some word_token =>
          if !word_token.kind.is_word then false
          else
            let word := document.get_span_content_str word_token.span
            CONTEXT_WORDS.any fun w => eqIgnoreAsciiCase w word

/-- `is_good_adjective` (adjective_of_a.rs). -/
def is_good_adjective (word : List Char) : Bool :=
  ADJECTIVE_WHITELIST.any fun adj => eqIgnoreAsciiCase word adj

/-- `is_bad_adjective` (adjective_of_a.rs). -/
def is_bad_adjective (word : List Char) : Bool :=
  ADJECTIVE_BLACKLIST.any fun adj => eqIgnoreAsciiCase word adj

/-- `AdjectiveOfA` (adjective_of_a.rs): a fieldless, Default-constructible
rule. -/
structure AdjectiveOfA

/-- The body of the `for i in document.iter_adjective_indices()` loop of
`AdjectiveOfA::lint`, at one index `i`: `none` models `continue` (and
the impossible `get_token(i).unwrap()` failure, which cannot occur for
an index produced by `iter_adjective_indices`); `some lint` models
pushing `lint` onto the result vector.  The checks appear in source
order. -/
def AdjectiveOfA.lintAt (document : Document) (i : Nat) : Option Lint :=
  match document.get_token i with
  | none => none
  | some adjective =>
    let space_1 := document.get_token (i + 1)
    let word_of := document.get_token (i + 2)
    let space_2 := document.get_token (i + 3)
    let a_or_an := document.get_token (i + 4)
    let adj_str := toLowercase (document.get_span_content_str adjective.span)
    if !(is_good_adjective adj_str) && !(has_context_word document i) then none
    else if is_bad_adjective adj_str then none
    else if strEndsWith adj_str (['e','r']) || strEndsWith adj_str (['s','t']) then
      none
    else if strEndsWith adj_str (['i','n','g'])
        && (adjective.kind.is_noun || adjective.kind.is_verb) then
      none
    else
      match space_1, word_of, space_2, a_or_an with
      | some space_1, some word_of, some space_2, some a_or_an =>
        if !space_1.kind.is_whitespace then none
        else if !word_of.kind.is_word then none
        else if toLowercase (document.get_span_content_str word_of.span) ≠ ['o','f'] then
          none
        else if !space_2.kind.is_whitespace then none
        else if !a_or_an.kind.is_word then none
        else
          let a_or_an_str := toLowercase (document.get_span_content_str a_or_an.span)
          if a_or_an_str ≠ ['a'] ∧ a_or_an_str ≠ ['a','n'] then none
          else
            let sugg_1 := document.get_span_content adjective.span
              ++ document.get_span_content space_1.span
              ++ document.get_span_content a_or_an.span
            let sugg_2 := document.get_span_content adjective.span
              ++ document.get_span_content space_2.span
              ++ document.get_span_content a_or_an.span
            let suggestions :=
              if sugg_1 = sugg_2 then [Suggestion.ReplaceWith sugg_1]
              else [Suggestion.ReplaceWith sugg_1, Suggestion.ReplaceWith sugg_2]
            some {
              span := ⟨adjective.span.start, a_or_an.span.stop⟩
              lint_kind := LintKind.Style
              suggestions := suggestions
              message := "The word `of` is not needed here."
              priority := 63
            }
      | _, _, _, _ => none

/-- `AdjectiveOfA::lint`: the loop over `iter_adjective_indices`,
pushing the lint produced at each index in ascending index order. -/
def AdjectiveOfA.lint (_rule : AdjectiveOfA) (document : Document) : List Lint :=
  document.iter_adjective_indices.filterMap (AdjectiveOfA.lintAt document)

/-- `AdjectiveOfA::description`. -/
def AdjectiveOfA.description (_rule : AdjectiveOfA) : String :=
  "This rule looks for sequences of words of the form `adjective of a`."

/-- Token-kind values used by the concrete witness documents. -/
def wordKind : TokenKind :=
  ⟨false, true, false, false, false⟩

def wsKind : TokenKind :=
  ⟨true, false, false, false, false⟩

def adjKind : TokenKind :=
  ⟨false, true, false, false, true⟩

/-- Witness document for the text `large of a`. -/
def docLarge : Document :=
  ⟨['l','a','r','g','e',' ','o','f',' ','a'],
   [⟨⟨0,5⟩, adjKind⟩, ⟨⟨5,6⟩, wsKind⟩, ⟨⟨6,8⟩, wordKind⟩,
    ⟨⟨8,9⟩, wsKind⟩, ⟨⟨9,10⟩, wordKind⟩]⟩

example : (AdjectiveOfA.lintAt docLarge 0).isSome = true := by decide

example :
    AdjectiveOfA.lint AdjectiveOfA.mk docLarge =
      [{ span := ⟨0, 10⟩, lint_kind := LintKind.Style,
         suggestions := [Suggestion.ReplaceWith ['l','a','r','g','e',' ','a']],
         message := "The word `of` is not needed here.", priority := 63 }] := by
  decide

/-- A pattern is prefix-sound when every reported match length is
bounded by the length of the token slice it was applied to. -/
def match_bounded (P : PatternFn) : Prop :=
  ∀ T s n, P T s = some n → n ≤ T.length

/-- Helper for C7: when the inner pattern consumes at least one token
on every non-empty slice, stays within bounds, and fails on the empty
slice, the loop started at any in-range cursor consumes everything. -/
theorem RepeatingPattern.matchesFrom_full_cover (p : RepeatingPattern)
    (tokens : List Token) (source : List Char)
    (hmin : p.required_repetitions = 0)
    (hP : ∀ T, T ≠ [] → ∃ n, p.inner T source = some n ∧ 0 < n ∧ n ≤ T.length)
    (hempty : p.inner [] source = none) :
    ∀ m tok_cursor repetition, tokens.length - tok_cursor = m →
      tok_cursor ≤ tokens.length →
      p.matchesFrom tokens source tok_cursor repetition = .ok (some tokens.length) := by
  intro m
  induction m using Nat.strong_induction_on with
  | _ m ih =>
    intro c r hm hc
    rw [RepeatingPattern.matchesFrom]
    rcases Nat.eq_or_lt_of_le hc with heq | hlt
    · have hdrop : tokens.drop c = [] := by
        rw [heq, List.drop_length]
      simp only [hc, dif_pos, hdrop, hempty, hmin, Nat.zero_le, if_pos]
      rw [heq]
    · have hne : tokens.drop c ≠ [] := by
        intro habs
        have := List.drop_eq_nil_iff.mp habs
        omega
      obtain ⟨n, hsome, hpos, hle⟩ := hP (tokens.drop c) hne
      rw [List.length_drop] at hle
      obtain ⟨k, rfl⟩ : ∃ k, n = k + 1 := ⟨n - 1, by omega⟩
      simp only [hc, dif_pos]
      rw [hsome]
      exact ih (tokens.length - (c + (k + 1))) (by omega) (c + (k + 1)) (r + 1)
        rfl (by omega)

/-- Helper for C10: with a prefix-sound inner pattern the loop never
faults and any length it returns is bounded by the slice length. -/
theorem RepeatingPattern.matchesFrom_bounded (p : RepeatingPattern)
    (tokens : List Token) (source : List Char)
    (hP : match_bounded p.inner) :
    ∀ m tok_cursor repetition, tokens.length - tok_cursor = m →
      tok_cursor ≤ tokens.length →
      ∃ res, p.matchesFrom tokens source tok_cursor repetition = .ok res ∧
        ∀ n, res = some n → n ≤ tokens.length := by
  intro m
  induction m using Nat.strong_induction_on with
  | _ m ih =>
    intro c r hm hc
    rw [RepeatingPattern.matchesFrom]
    simp only [hc, dif_pos]
    rcases hsome : p.inner (tokens.drop c) source with _ | n
    · simp only [hsome]
      by_cases hreq : p.required_repetitions ≤ r
      · exact ⟨some c, by simp [hreq], fun n hn => by cases hn; exact hc⟩
      · exact ⟨none, by simp [hreq], fun n hn => by cases hn⟩
    · have hle : n ≤ tokens.length - c := by
        have := hP (tokens.drop c) source n hsome
        rwa [List.length_drop] at this
      rcases n with _ | k
      · exact ⟨some c, by simp [hsome], fun n hn => by cases hn; exact hc⟩
      · simp only [hsome]
        exact ih (tokens.length - (c + (k + 1))) (by omega) (c + (k + 1)) (r + 1)
          rfl (by omega)

/-- C1: if an application of the inner pattern during
`RepeatingPattern(P, min_reps).matches(T, s)` returns a match of
length 0, the loop stops immediately and returns `Some(cursor)`,
regardless of the repetition count; in particular, when the very first
application returns `Some(0)` the call returns `Some(0)` even when
`min_reps > 0`. -/
theorem C1_zero_length_match_stops (p : RepeatingPattern) (tokens : List Token)
    (source : List Char) :
    (∀ tok_cursor repetition, tok_cursor ≤ tokens.length →
      p.inner (tokens.drop tok_cursor) source = some 0 →
      p.matchesFrom tokens source tok_cursor repetition = .ok (some tok_cursor)) ∧
    (p.inner tokens source = some 0 →
      p.matches tokens source = .ok (some 0)) := by
  constructor
  · intro c r hc h0
    rw [RepeatingPattern.matchesFrom]
    simp only [hc, dif_pos]
    rw [h0]
  · intro h0
    rw [RepeatingPattern.matches, RepeatingPattern.matchesFrom]
    simp only [Nat.zero_le, dif_pos, List.drop_zero]
    rw [h0]

/-- Witness for C1 at a concrete always-zero inner pattern with
`min_reps = 5 > 0`. -/
theorem C1_zero_length_match_stops_witness :
    (RepeatingPattern.mk (fun _ _ => some 0) 5).matches [] [] = .ok (some 0) :=
  (C1_zero_length_match_stops (RepeatingPattern.mk (fun _ _ => some 0) 5) [] []).2
    rfl

/-- C2: on every non-empty token slice, `Invert(P).matches(T, s)`
returns `Some(1)` exactly when `P.matches(T, s)` is `None`, and
returns `None` otherwise. -/
theorem C2_invert_iff (p : Invert) (tokens : List Token) (source : List Char)
    (_h : tokens ≠ []) :
    (p.matches tokens source = some 1 ↔ p.inner tokens source = none) ∧
    (p.inner tokens source ≠ none → p.matches tokens source = none) := by
  rcases hinner : p.inner tokens source with _ | n <;>
    simp [Invert.matches, hinner]

/-- Witness for C2 at a concrete always-failing inner pattern and a
one-token slice. -/
theorem C2_invert_iff_witness :
    (Invert.mk (fun _ _ => none)).matches [⟨⟨0, 0⟩, wordKind⟩] [] = some 1 :=
  ((C2_invert_iff (Invert.mk (fun _ _ => none)) [⟨⟨0, 0⟩, wordKind⟩] []
    (by decide)).1).mpr rfl

/-- C7: when the inner pattern always matches non-empty slices with a
nonzero in-bounds length and fails on the empty remainder (its match
lengths tile the slice), `RepeatingPattern(P, 0)` matches the whole
slice: the result is `Some(len(T))`. -/
theorem C7_repeating_full_cover (p : RepeatingPattern) (tokens : List Token)
    (source : List Char)
    (hmin : p.required_repetitions = 0)
    (hP : ∀ T, T ≠ [] → ∃ n, p.inner T source = some n ∧ 0 < n ∧ n ≤ T.length)
    (hempty : p.inner [] source = none) :
    p.matches tokens source = .ok (some tokens.length) :=
  RepeatingPattern.matchesFrom_full_cover p tokens source hmin hP hempty
    tokens.length 0 0 rfl (Nat.zero_le _)

/-- Witness for C7 at a concrete one-token-at-a-time inner pattern on a
two-token slice. -/
theorem C7_repeating_full_cover_witness :
    (RepeatingPattern.mk (fun T _ => if T.isEmpty then none else some 1) 0).matches
      [⟨⟨0, 1⟩, wordKind⟩, ⟨⟨1, 2⟩, wsKind⟩] [] = .ok (some 2) :=
  C7_repeating_full_cover _ _ _ rfl
    (fun T hT => by
      cases T with
      | nil => exact absurd rfl hT
      | cons a t => exact ⟨1, by simp, Nat.one_pos, by simp⟩)
    rfl

/-- C9: on the empty slice `Invert(P)` reports `Some(1)` whenever the
inner pattern fails there — `WhitespacePattern` being such a pattern —
so `Invert` can report a match longer than the slice, and the
prefix-soundness bound fails for `Invert` without the non-empty-slice
precondition. -/
theorem C9_invert_empty_slice (P : PatternFn) (s : List Char)
    (h : P [] s = none) :
    (Invert.mk P).matches [] s = some 1 ∧
    WhitespacePattern.mk.matches [] s = none ∧
    (Invert.mk WhitespacePattern.mk.matches).matches [] s = some 1 ∧
    ¬ (∀ (Q : PatternFn) (T : List Token) (s' : List Char) (n : Nat),
        (Invert.mk Q).matches T s' = some n → n ≤ T.length) := by
  refine ⟨by simp [Invert.matches, h], rfl, rfl, ?_⟩
  intro hcontra
  have h1 : (Invert.mk WhitespacePattern.mk.matches).matches [] [] = some 1 := rfl
  have := hcontra WhitespacePattern.mk.matches [] [] 1 h1
  simp at this

/-- Witness for C9 with the inner pattern instantiated to
`WhitespacePattern`. -/
theorem C9_invert_empty_slice_witness :
    (Invert.mk WhitespacePattern.mk.matches).matches [] [] = some 1 :=
  (C9_invert_empty_slice WhitespacePattern.mk.matches [] rfl).1

/-- C10: with a prefix-sound inner pattern, `RepeatingPattern.matches`
terminates without any out-of-bounds slice index (no fault) for every
slice, source and repetition requirement, and every `Some(n)` it
returns satisfies `n ≤ len(T)`.  Termination itself is witnessed by
`RepeatingPattern.matchesFrom` being a total function whose measure
`len(T) + 1 - cursor` strictly decreases at each looping step. -/
theorem C10_repeating_bounded (p : RepeatingPattern) (tokens : List Token)
    (source : List Char) (hP : match_bounded p.inner) :
    ∃ res, p.matches tokens source = .ok res ∧
      ∀ n, res = some n → n ≤ tokens.length :=
  RepeatingPattern.matchesFrom_bounded p tokens source hP
    tokens.length 0 0 rfl (Nat.zero_le _)

/-- Witness for C10 at a concrete always-failing, trivially
prefix-sound inner pattern. -/
theorem C10_repeating_bounded_witness :
    match_bounded (fun _ _ => none) ∧
    ∃ res, (RepeatingPattern.mk (fun _ _ => none) 0).matches [] [] = .ok res ∧
      ∀ n, res = some n → n ≤ ([] : List Token).length :=
  by
  have hb : match_bounded (fun _ _ => none) := by
    intro T s n h
    cases h
  exact ⟨hb, C10_repeating_bounded (RepeatingPattern.mk (fun _ _ => none) 0) [] [] hb⟩

/-- Zeta-reduced unfolding of `AdjectiveOfA.lintAt`: the let-bound
locals of the source are inlined.  Definitionally equal to the
definition; stated once so that proofs can case-split on it. -/
theorem AdjectiveOfA.lintAt_eq (document : Document) (i : Nat) :
    AdjectiveOfA.lintAt document i =
      match document.get_token i with
      | none => none
      | some adjective =>
        if !(is_good_adjective (toLowercase (document.get_span_content_str adjective.span)))
            && !(has_context_word document i) then none
        else if is_bad_adjective (toLowercase (document.get_span_content_str adjective.span)) then
          none
        else if strEndsWith (toLowercase (document.get_span_content_str adjective.span)) (['e','r'])
            || strEndsWith (toLowercase (document.get_span_content_str adjective.span)) (['s','t']) then
          none
        else if strEndsWith (toLowercase (document.get_span_content_str adjective.span)) (['i','n','g'])
            && (adjective.kind.is_noun || adjective.kind.is_verb) then
          none
        else
          match document.get_token (i + 1), document.get_token (i + 2),
              document.get_token (i + 3), document.get_token (i + 4) with
          | some space_1, some word_of, some space_2, some a_or_an =>
            if !space_1.kind.is_whitespace then none
            else if !word_of.kind.is_word then none
            else if toLowercase (document.get_span_content_str word_of.span) ≠ ['o','f'] then none
            else if !space_2.kind.is_whitespace then none
            else if !a_or_an.kind.is_word then none
            else if toLowercase (document.get_span_content_str a_or_an.span) ≠ ['a'] ∧
                toLowercase (document.get_span_content_str a_or_an.span) ≠ ['a','n'] then none
            else
              some {
                span := ⟨adjective.span.start, a_or_an.span.stop⟩
                lint_kind := LintKind.Style
                suggestions :=
                  if document.get_span_content adjective.span
                        ++ document.get_span_content space_1.span
                        ++ document.get_span_content a_or_an.span
                      = document.get_span_content adjective.span
                        ++ document.get_span_content space_2.span
                        ++ document.get_span_content a_or_an.span
                  then [Suggestion.ReplaceWith (document.get_span_content adjective.span
                        ++ document.get_span_content space_1.span
                        ++ document.get_span_content a_or_an.span)]
                  else [Suggestion.ReplaceWith (document.get_span_content adjective.span
                        ++ document.get_span_content space_1.span
                        ++ document.get_span_content a_or_an.span),
                        Suggestion.ReplaceWith (document.get_span_content adjective.span
                        ++ document.get_span_content space_2.span
                        ++ document.get_span_content a_or_an.span)]
                message := "The word `of` is not needed here."
                priority := 63
              }
          | _, _, _, _ => none := by
  unfold AdjectiveOfA.lintAt
  rfl

/-- Inversion for `AdjectiveOfA.lintAt`: a produced lint pins down the
five tokens of the construction, their classifications, and every field
of the lint. -/
theorem AdjectiveOfA.lintAt_some_inversion (document : Document) (i : Nat)
    (l : Lint) (h : AdjectiveOfA.lintAt document i = some l) :
    ∃ adjective t1 t2 t3 t4,
      document.get_token i = some adjective ∧
      document.get_token (i + 1) = some t1 ∧
      document.get_token (i + 2) = some t2 ∧
      document.get_token (i + 3) = some t3 ∧
      document.get_token (i + 4) = some t4 ∧
      t1.kind.is_whitespace = true ∧
      t2.kind.is_word = true ∧
      toLowercase (document.get_span_content_str t2.span) = ['o','f'] ∧
      t3.kind.is_whitespace = true ∧
      t4.kind.is_word = true ∧
      (toLowercase (document.get_span_content_str t4.span) = ['a'] ∨
        toLowercase (document.get_span_content_str t4.span) = ['a','n']) ∧
      l = { span := ⟨adjective.span.start, t4.span.stop⟩
            lint_kind := LintKind.Style
            suggestions :=
              if document.get_span_content adjective.span
                    ++ document.get_span_content t1.span
                    ++ document.get_span_content t4.span
                  = document.get_span_content adjective.span
                    ++ document.get_span_content t3.span
                    ++ document.get_span_content t4.span
              then [Suggestion.ReplaceWith (document.get_span_content adjective.span
                    ++ document.get_span_content t1.span
                    ++ document.get_span_content t4.span)]
              else [Suggestion.ReplaceWith (document.get_span_content adjective.span
                    ++ document.get_span_content t1.span
                    ++ document.get_span_content t4.span),
                    Suggestion.ReplaceWith (document.get_span_content adjective.span
                    ++ document.get_span_content t3.span
                    ++ document.get_span_content t4.span)]
            message := "The word `of` is not needed here."
            priority := 63 } := by
  rw [AdjectiveOfA.lintAt_eq] at h
  split at h
  · cases h
  · rename_i adjective hadj
    generalize toLowercase (document.get_span_content_str adjective.span) = adj_str at h
    generalize has_context_word document i = ctx at h
    by_cases hgate : (!is_good_adjective adj_str && !ctx) = true
    · rw [if_pos hgate] at h
      cases h
    · rw [if_neg hgate] at h
      by_cases hbad : is_bad_adjective adj_str = true
      · rw [if_pos hbad] at h
        cases h
      · rw [if_neg hbad] at h
        by_cases hsfx : (strEndsWith adj_str ['e','r'] || strEndsWith adj_str ['s','t']) = true
        · rw [if_pos hsfx] at h
          cases h
        · rw [if_neg hsfx] at h
          by_cases hing : (strEndsWith adj_str ['i','n','g']
              && (adjective.kind.is_noun || adjective.kind.is_verb)) = true
          · rw [if_pos hing] at h
            cases h
          · rw [if_neg hing] at h
            split at h
            · rename_i space_1 word_of space_2 a_or_an h1 h2 h3 h4
              by_cases hw1 : (!space_1.kind.is_whitespace) = true
              · rw [if_pos hw1] at h
                cases h
              · rw [if_neg hw1] at h
                by_cases hw2 : (!word_of.kind.is_word) = true
                · rw [if_pos hw2] at h
                  cases h
                · rw [if_neg hw2] at h
                  by_cases hof : toLowercase (document.get_span_content_str word_of.span) ≠ ['o','f']
                  · rw [if_pos hof] at h
                    cases h
                  · rw [if_neg hof] at h
                    by_cases hw3 : (!space_2.kind.is_whitespace) = true
                    · rw [if_pos hw3] at h
                      cases h
                    · rw [if_neg hw3] at h
                      by_cases hw4 : (!a_or_an.kind.is_word) = true
                      · rw [if_pos hw4] at h
                        cases h
                      · rw [if_neg hw4] at h
                        by_cases ha : toLowercase (document.get_span_content_str a_or_an.span) ≠ ['a'] ∧
                            toLowercase (document.get_span_content_str a_or_an.span) ≠ ['a','n']
                        · rw [if_pos ha] at h
                          cases h
                        · rw [if_neg ha] at h
                          refine ⟨adjective, space_1, word_of, space_2, a_or_an,
                            hadj, h1, h2, h3, h4, ?_, ?_, ?_, ?_, ?_, ?_, ?_⟩
                          · simpa using hw1
                          · simpa using hw2
                          · simpa using hof
                          · simpa using hw3
                          · simpa using hw4
                          · rcases Decidable.not_and_iff_or_not.mp ha with hx | hx
                            · exact Or.inl (Decidable.not_not.mp hx)
                            · exact Or.inr (Decidable.not_not.mp hx)
                          · exact ((Option.some.injEq _ _).mp h).symm
            · cases h

/-- Witness document for the text `How much of a` (blacklisted
adjective `much` with a context word before it). -/
def docMuch : Document :=
  ⟨['H','o','w',' ','m','u','c','h',' ','o','f',' ','a'],
   [⟨⟨0,3⟩, wordKind⟩, ⟨⟨3,4⟩, wsKind⟩, ⟨⟨4,8⟩, adjKind⟩,
    ⟨⟨8,9⟩, wsKind⟩, ⟨⟨9,11⟩, wordKind⟩, ⟨⟨11,12⟩, wsKind⟩,
    ⟨⟨12,13⟩, wordKind⟩]⟩

/-- Witness document for the text `too faster of a` (adjective ending
in `er`, with the context word `too`). -/
def docEr : Document :=
  ⟨['t','o','o',' ','f','a','s','t','e','r',' ','o','f',' ','a'],
   [⟨⟨0,3⟩, wordKind⟩, ⟨⟨3,4⟩, wsKind⟩, ⟨⟨4,10⟩, adjKind⟩,
    ⟨⟨10,11⟩, wsKind⟩, ⟨⟨11,13⟩, wordKind⟩, ⟨⟨13,14⟩, wsKind⟩,
    ⟨⟨14,15⟩, wordKind⟩]⟩

/-- Witness document for the text `too boring of a`: the adjective
`boring` ends in `ing` but carries neither the noun nor the verb
capability, so it stays eligible. -/
def docIng : Document :=
  ⟨['t','o','o',' ','b','o','r','i','n','g',' ','o','f',' ','a'],
   [⟨⟨0,3⟩, wordKind⟩, ⟨⟨3,4⟩, wsKind⟩, ⟨⟨4,10⟩, adjKind⟩,
    ⟨⟨10,11⟩, wsKind⟩, ⟨⟨11,13⟩, wordKind⟩, ⟨⟨13,14⟩, wsKind⟩,
    ⟨⟨14,15⟩, wordKind⟩]⟩

/-- The adjective token of `docIng`. -/
def boringToken : Token :=
  ⟨⟨4,10⟩, adjKind⟩

/-- The single lint that `AdjectiveOfA` produces on `docLarge`. -/
def lintLarge : Lint :=
  { span := ⟨0, 10⟩
    lint_kind := LintKind.Style
    suggestions := [Suggestion.ReplaceWith ['l','a','r','g','e',' ','a']]
    message := "The word `of` is not needed here."
    priority := 63 }

/-- C3: `AdjectiveOfA.lint` emits a lint at an adjective index `i` only
if the tokens at `i+1 .. i+4` all exist and classify as whitespace,
word `of` (lower-cased), whitespace, and word `a` or `an` (lower-cased)
respectively; a lint in the output always comes from such an index. -/
theorem C3_frame_condition (rule : AdjectiveOfA) (document : Document) (l : Lint)
    (h : l ∈ AdjectiveOfA.lint rule document) :
    ∃ i, i ∈ document.iter_adjective_indices ∧
      AdjectiveOfA.lintAt document i = some l ∧
      ∃ t1 t2 t3 t4,
        document.get_token (i + 1) = some t1 ∧ t1.kind.is_whitespace = true ∧
        document.get_token (i + 2) = some t2 ∧ t2.kind.is_word = true ∧
        toLowercase (document.get_span_content_str t2.span) = ['o','f'] ∧
        document.get_token (i + 3) = some t3 ∧ t3.kind.is_whitespace = true ∧
        document.get_token (i + 4) = some t4 ∧ t4.kind.is_word = true ∧
        (toLowercase (document.get_span_content_str t4.span) = ['a'] ∨
          toLowercase (document.get_span_content_str t4.span) = ['a','n']) := by
  unfold AdjectiveOfA.lint at h
  obtain ⟨i, hi, hsome⟩ := List.mem_filterMap.mp h
  obtain ⟨adjective, t1, t2, t3, t4, _, h1, h2, h3, h4, hw1, hw2, hof, hw3, hw4, ha, _⟩ :=
    AdjectiveOfA.lintAt_some_inversion document i l hsome
  exact ⟨i, hi, hsome, t1, t2, t3, t4, h1, hw1, h2, hw2, hof, h3, hw3, h4, hw4, ha⟩

/-- Witness for C3 on the concrete document `docLarge`. -/
theorem C3_frame_condition_witness :
    lintLarge ∈ AdjectiveOfA.lint AdjectiveOfA.mk docLarge ∧
    ∃ i, i ∈ docLarge.iter_adjective_indices ∧
      AdjectiveOfA.lintAt docLarge i = some lintLarge :=
  ⟨by decide,
   (C3_frame_condition AdjectiveOfA.mk docLarge lintLarge (by decide)).elim
     fun i hi => ⟨i, hi.1, hi.2.1⟩⟩

/-- C4: every lint emitted by `AdjectiveOfA.lint` spans from the
adjective token start to the article token end, has kind Style, the
fixed message, priority 63, a first suggestion replacing the span with
adjective + first whitespace run + article, a second suggestion
(adjective + second whitespace run + article) present exactly when it
differs from the first, and hence one or two pairwise-distinct
suggestions. -/
theorem C4_lint_shape (rule : AdjectiveOfA) (document : Document) (l : Lint)
    (h : l ∈ AdjectiveOfA.lint rule document) :
    ∃ i adjective t1 t3 t4,
      document.get_token i = some adjective ∧
      document.get_token (i + 1) = some t1 ∧
      document.get_token (i + 3) = some t3 ∧
      document.get_token (i + 4) = some t4 ∧
      l.span = ⟨adjective.span.start, t4.span.stop⟩ ∧
      l.lint_kind = LintKind.Style ∧
      l.message = "The word `of` is not needed here." ∧
      l.priority = 63 ∧
      l.suggestions.head? = some (Suggestion.ReplaceWith
        (document.get_span_content adjective.span
          ++ document.get_span_content t1.span
          ++ document.get_span_content t4.span)) ∧
      (document.get_span_content adjective.span
            ++ document.get_span_content t1.span
            ++ document.get_span_content t4.span
          = document.get_span_content adjective.span
            ++ document.get_span_content t3.span
            ++ document.get_span_content t4.span →
        l.suggestions = [Suggestion.ReplaceWith
          (document.get_span_content adjective.span
            ++ document.get_span_content t1.span
            ++ document.get_span_content t4.span)]) ∧
      (document.get_span_content adjective.span
            ++ document.get_span_content t1.span
            ++ document.get_span_content t4.span
          ≠ document.get_span_content adjective.span
            ++ document.get_span_content t3.span
            ++ document.get_span_content t4.span →
        l.suggestions = [Suggestion.ReplaceWith
          (document.get_span_content adjective.span
            ++ document.get_span_content t1.span
            ++ document.get_span_content t4.span),
          Suggestion.ReplaceWith
          (document.get_span_content adjective.span
            ++ document.get_span_content t3.span
            ++ document.get_span_content t4.span)]) ∧
      (l.suggestions.length = 1 ∨ l.suggestions.length = 2) ∧
      l.suggestions.Nodup := by
  unfold AdjectiveOfA.lint at h
  obtain ⟨i, hi, hsome⟩ := List.mem_filterMap.mp h
  obtain ⟨adjective, t1, t2, t3, t4, hadj, h1, h2, h3, h4, _, _, _, _, _, _, hl⟩ :=
    AdjectiveOfA.lintAt_some_inversion document i l hsome
  subst hl
  refine ⟨i, adjective, t1, t3, t4, hadj, h1, h3, h4, rfl, rfl, rfl, rfl,
    ?_, ?_, ?_, ?_, ?_⟩
  · split <;> rfl
  · intro hs
    rw [if_pos hs]
  · intro hs
    rw [if_neg hs]
  · by_cases hs : document.get_span_content adjective.span
        ++ document.get_span_content t1.span
        ++ document.get_span_content t4.span
      = document.get_span_content adjective.span
        ++ document.get_span_content t3.span
        ++ document.get_span_content t4.span
    · refine Or.inl ?_
      rw [if_pos hs]
      rfl
    · refine Or.inr ?_
      rw [if_neg hs]
      rfl
  · by_cases hs : document.get_span_content adjective.span
        ++ document.get_span_content t1.span
        ++ document.get_span_content t4.span
      = document.get_span_content adjective.span
        ++ document.get_span_content t3.span
        ++ document.get_span_content t4.span
    · rw [if_pos hs]
      exact List.nodup_singleton _
    · rw [if_neg hs]
      refine List.Pairwise.cons ?_ (List.pairwise_singleton _ _)
      intro b hb
      rw [List.mem_singleton] at hb
      subst hb
      intro hcon
      exact hs (Suggestion.ReplaceWith.inj hcon)

/-- Witness for C4 on the concrete document `docLarge`. -/
theorem C4_lint_shape_witness :
    lintLarge ∈ AdjectiveOfA.lint AdjectiveOfA.mk docLarge ∧
    ∃ i adjective t1 t3 t4,
      docLarge.get_token i = some adjective ∧
      docLarge.get_token (i + 1) = some t1 ∧
      docLarge.get_token (i + 3) = some t3 ∧
      docLarge.get_token (i + 4) = some t4 ∧
      lintLarge.span = ⟨adjective.span.start, t4.span.stop⟩ :=
  ⟨by decide, by
    obtain ⟨i, adjective, t1, t3, t4, h0, h1, h3, h4, hspan, _⟩ :=
      C4_lint_shape AdjectiveOfA.mk docLarge lintLarge (by decide)
    exact ⟨i, adjective, t1, t3, t4, h0, h1, h3, h4, hspan⟩⟩

/-- C5: an adjective whose lower-cased text is `much` or `part` never
produces a lint at its index, regardless of any preceding context word:
either the whitelist/context gate already skips it, or the blacklist
check does. -/
theorem C5_blacklisted_adjective_never_lints (document : Document) (i : Nat)
    (adjective : Token) (h : document.get_token i = some adjective)
    (hbad : toLowercase (document.get_span_content_str adjective.span) = ['m','u','c','h'] ∨
      toLowercase (document.get_span_content_str adjective.span) = ['p','a','r','t']) :
    AdjectiveOfA.lintAt document i = none := by
  rw [AdjectiveOfA.lintAt_eq]
  split
  · rfl
  · rename_i adjective' hadj'
    rw [h] at hadj'
    cases hadj'
    have hbad' : is_bad_adjective
        (toLowercase (document.get_span_content_str adjective.span)) = true := by
      rcases hbad with hb | hb <;> rw [hb] <;> decide
    by_cases hgate : (!is_good_adjective
          (toLowercase (document.get_span_content_str adjective.span))
        && !has_context_word document i) = true
    · rw [if_pos hgate]
    · rw [if_neg hgate, if_pos hbad']

/-- Witness for C5 on the concrete document `docMuch`
(`How much of a`), whose context word `how` would otherwise open the
gate. -/
theorem C5_blacklisted_adjective_never_lints_witness :
    AdjectiveOfA.lintAt docMuch 2 = none :=
  C5_blacklisted_adjective_never_lints docMuch 2 ⟨⟨4, 8⟩, adjKind⟩ (by decide)
    (Or.inl (by decide))

/-- C6: no lint is emitted at an adjective whose lower-cased text ends
in `er` or `st`; none is emitted when the text ends in `ing` and the
token also carries the noun or the verb capability; and an `ing`
adjective carrying neither capability stays eligible, witnessed by
`docIng` (`too boring of a`), where a lint is produced. -/
theorem C6_morphological_exclusions (document : Document) (i : Nat)
    (adjective : Token) (h : document.get_token i = some adjective) :
    ((strEndsWith (toLowercase (document.get_span_content_str adjective.span))
          ['e','r'] = true ∨
      strEndsWith (toLowercase (document.get_span_content_str adjective.span))
          ['s','t'] = true) →
      AdjectiveOfA.lintAt document i = none) ∧
    (strEndsWith (toLowercase (document.get_span_content_str adjective.span))
          ['i','n','g'] = true →
      (adjective.kind.is_noun = true ∨ adjective.kind.is_verb = true) →
      AdjectiveOfA.lintAt document i = none) ∧
    (strEndsWith (toLowercase (docIng.get_span_content_str boringToken.span))
          ['i','n','g'] = true ∧
      boringToken.kind.is_noun = false ∧
      boringToken.kind.is_verb = false ∧
      docIng.get_token 2 = some boringToken ∧
      (AdjectiveOfA.lintAt docIng 2).isSome = true) := by
  refine ⟨?_, ?_, by decide⟩
  · intro hsfx
    rw [AdjectiveOfA.lintAt_eq]
    split
    · rfl
    · rename_i adjective' hadj'
      rw [h] at hadj'
      cases hadj'
      have hsfx' : (strEndsWith
            (toLowercase (document.get_span_content_str adjective.span)) ['e','r']
          || strEndsWith
            (toLowercase (document.get_span_content_str adjective.span)) ['s','t'])
          = true := by
        rcases hsfx with hs | hs <;> simp [hs]
      by_cases hgate : (!is_good_adjective
            (toLowercase (document.get_span_content_str adjective.span))
          && !has_context_word document i) = true
      · rw [if_pos hgate]
      · rw [if_neg hgate]
        by_cases hbad : is_bad_adjective
            (toLowercase (document.get_span_content_str adjective.span)) = true
        · rw [if_pos hbad]
        · rw [if_neg hbad, if_pos hsfx']
  · intro hing hcap
    rw [AdjectiveOfA.lintAt_eq]
    split
    · rfl
    · rename_i adjective' hadj'
      rw [h] at hadj'
      cases hadj'
      have hing' : (strEndsWith
            (toLowercase (document.get_span_content_str adjective.span)) ['i','n','g']
          && (adjective.kind.is_noun || adjective.kind.is_verb)) = true := by
        rcases hcap with hc | hc <;> simp [hing, hc]
      by_cases hgate : (!is_good_adjective
            (toLowercase (document.get_span_content_str adjective.span))
          && !has_context_word document i) = true
      · rw [if_pos hgate]
      · rw [if_neg hgate]
        by_cases hbad : is_bad_adjective
            (toLowercase (document.get_span_content_str adjective.span)) = true
        · rw [if_pos hbad]
        · rw [if_neg hbad]
          by_cases hsfx : (strEndsWith
                (toLowercase (document.get_span_content_str adjective.span)) ['e','r']
              || strEndsWith
                (toLowercase (document.get_span_content_str adjective.span)) ['s','t'])
              = true
          · rw [if_pos hsfx]
          · rw [if_neg hsfx, if_pos hing']

/-- Witness for C6 on the concrete document `docEr`
(`too faster of a`). -/
theorem C6_morphological_exclusions_witness :
    AdjectiveOfA.lintAt docEr 2 = none :=
  (C6_morphological_exclusions docEr 2 ⟨⟨4, 10⟩, adjKind⟩ (by decide)).1
    (Or.inl (by decide))

/-- Each produced lint starts at the start offset of the token at its
index; helper for the ordering part of C8. -/
theorem AdjectiveOfA.lintAt_span_start (document : Document) (i : Nat) (l : Lint)
    (h : AdjectiveOfA.lintAt document i = some l) :
    ∃ t, document.tokens[i]? = some t ∧ l.span.start = t.span.start := by
  obtain ⟨adjective, _, _, _, _, hadj, _, _, _, _, _, _, _, _, _, _, hl⟩ :=
    AdjectiveOfA.lintAt_some_inversion document i l h
  exact ⟨adjective, hadj, by rw [hl]⟩

/-- C8: `AdjectiveOfA.lint` is a pure function of the document content
(two documents with identical source and token sequences produce
identical lint lists, for any two states of the fieldless rule), and —
whenever the document's tokens appear in ascending start-offset order,
as tokenization guarantees — the returned lints are in document order:
span start offsets ascend along the ascending adjective-index
iteration.  The document is never mutated: the embedding is purely
functional and `lint` takes the document immutably. -/
theorem C8_pure_and_ordered (rule1 rule2 : AdjectiveOfA) (d1 d2 : Document)
    (hsource : d1.source = d2.source) (htokens : d1.tokens = d2.tokens) :
    AdjectiveOfA.lint rule1 d1 = AdjectiveOfA.lint rule2 d2 ∧
    (d1.tokens.Pairwise (fun t u => t.span.start ≤ u.span.start) →
      (AdjectiveOfA.lint rule1 d1).Pairwise
        (fun a b => a.span.start ≤ b.span.start)) := by
  have hd : d1 = d2 := by
    cases d1
    cases d2
    simp_all
  subst hd
  refine ⟨rfl, ?_⟩
  intro hpair
  unfold AdjectiveOfA.lint
  apply List.pairwise_filterMap.mpr
  have hlt : List.Pairwise (· < ·) d1.iter_adjective_indices := by
    unfold Document.iter_adjective_indices
    exact (List.pairwise_lt_range _).filter _
  refine hlt.imp ?_
  intro i j hij
  intro a ha b hb
  rw [Option.mem_def] at ha hb
  obtain ⟨ti, hti, hai⟩ := AdjectiveOfA.lintAt_span_start d1 i a ha
  obtain ⟨tj, htj, haj⟩ := AdjectiveOfA.lintAt_span_start d1 j b hb
  rw [hai, haj]
  obtain ⟨hilt, hieq⟩ := List.getElem?_eq_some_iff.mp hti
  obtain ⟨hjlt, hjeq⟩ := List.getElem?_eq_some_iff.mp htj
  have hrel := List.pairwise_iff_getElem.mp hpair i j hilt hjlt hij
  rwa [hieq, hjeq] at hrel

/-- Witness for C8 at the concrete document `docLarge`. -/
theorem C8_pure_and_ordered_witness :
    AdjectiveOfA.lint AdjectiveOfA.mk docLarge
      = AdjectiveOfA.lint AdjectiveOfA.mk docLarge ∧
    (docLarge.tokens.Pairwise (fun t u => t.span.start ≤ u.span.start) →
      (AdjectiveOfA.lint AdjectiveOfA.mk docLarge).Pairwise
        (fun a b => a.span.start ≤ b.span.start)) :=
  C8_pure_and_ordered AdjectiveOfA.mk AdjectiveOfA.mk docLarge docLarge rfl rfl
